import Mathlib

/-!
Verification of the layout-reconstruction core of the Invoice-AI OCR service
(`src/ocr-service/app/ocr.py`): geometry extraction, line clustering,
reading-order sorting and degraded text assembly.

Coordinates and confidences are modelled as exact rationals (`ℚ`); a Python
value that may fail to convert (`float(p[0])` inside a `try`) is modelled as
an `Option ℚ`.  Fallible control flow (the `try/except` around clustering) is
modelled with `Option`.
-/

namespace OcrLayout

/-- One candidate corner of a polygon, as consumed by `_parse_box`.
`malformed` stands for a value that is not list-like or has fewer than two
entries (it is skipped); `pair x y` stands for a two-or-more element point
whose coordinate conversions `float(p[0])` / `float(p[1])` either succeed
(`some`) or raise (`none`). -/
inductive PPoint where
  | malformed
  | pair (x y : Option ℚ)
deriving DecidableEq

/-- The second element `segment[1]` of a raw segment, as consumed by
`_segment_text`: `missing` for an absent or falsy or non-sequence value,
`plain` for a bare string, `pair` for a `(text, conf)` tuple. -/
inductive SegPayload where
  | missing
  | plain (s : String)
  | pair (text : String) (conf : ℚ)
deriving DecidableEq

/-- A raw OCR segment `[box, (text, conf)]`.  `box = none` models a `None`
or non list-like box (including the empty-segment guard of `_parse_box`). -/
structure Segment where
  box : Option (List PPoint)
  payload : SegPayload
deriving DecidableEq

instance : Inhabited Segment := ⟨⟨none, .missing⟩⟩

/-- The x-coordinates collected by the point loop of `_parse_box`:
`xs.append(float(p[0]))` runs exactly when the conversion of `p[0]` succeeds. -/
def boxXs (ps : List PPoint) : List ℚ :=
  ps.filterMap (fun p =>
    match p with
    | .pair (some x) _ => some x
    | _ => none)

/-- The y-coordinates collected by `_parse_box`: `ys.append(float(p[1]))`
runs only after `xs.append(float(p[0]))` succeeded, so a `y` is collected
exactly when both conversions succeed. -/
def boxYs (ps : List PPoint) : List ℚ :=
  ps.filterMap (fun p =>
    match p with
    | .pair (some _) (some y) => some y
    | _ => none)

/-- Python `min(l)` for a non-empty list (the empty case is unreachable at
every use site; it defaults to `0`). -/
def listMin : List ℚ → ℚ
  | [] => 0
  | x :: xs => xs.foldl min x

/-- Python `max(l)` for a non-empty list. -/
def listMax : List ℚ → ℚ
  | [] => 0
  | x :: xs => xs.foldl max x

/-- Model of `_parse_box`: segment `[box, (text, conf)]` to `(min_x, min_y, max_x,
max_y)`, `none` when the box is missing, non list-like, empty, or no point
yields numeric coordinates. -/
def parseBox (s : Segment) : Option (ℚ × ℚ × ℚ × ℚ) :=
  match s.box with
  | none => none
  | some ps =>
    let xs := boxXs ps
    let ys := boxYs ps
    if xs = [] ∨ ys = [] then none
    else some (listMin xs, listMin ys, listMax xs, listMax ys)

/-- Derived geometry `(center_x, center_y, height)` of a segment. -/
structure Geom where
  cx : ℚ
  cy : ℚ
  h : ℚ
deriving DecidableEq

/-- Model of `_segment_geometry`: `(center_x, center_y, height)` from the bounding
box, `none` when the box is invalid. -/
def segmentGeometry (s : Segment) : Option Geom :=
  match parseBox s with
  | none => none
  | some (mnx, mny, mxx, mxy) =>
    some ⟨(mnx + mxx) / 2, (mny + mxy) / 2, mxy - mny⟩

/-- Python lexicographic tuple comparison `p <= q` on pairs of rationals. -/
def lexLe (p q : ℚ × ℚ) : Prop :=
  p.1 < q.1 ∨ (p.1 = q.1 ∧ p.2 ≤ q.2)

/-- Strict lexicographic comparison `p < q` on pairs of rationals. -/
def lexLt (p q : ℚ × ℚ) : Prop :=
  p.1 < q.1 ∨ (p.1 = q.1 ∧ p.2 < q.2)

instance (p q : ℚ × ℚ) : Decidable (lexLe p q) := by
  unfold lexLe; infer_instance

instance (p q : ℚ × ℚ) : Decidable (lexLt p q) := by
  unfold lexLt; infer_instance

theorem lexLe_refl (p : ℚ × ℚ) : lexLe p p := Or.inr ⟨rfl, le_refl _⟩

theorem lexLe_trans {p q r : ℚ × ℚ} (h1 : lexLe p q) (h2 : lexLe q r) :
    lexLe p r := by
  rcases h1 with h1 | ⟨e1, l1⟩ <;> rcases h2 with h2 | ⟨e2, l2⟩
  · exact Or.inl (lt_trans h1 h2)
  · exact Or.inl (e2 ▸ h1)
  · exact Or.inl (e1 ▸ h2)
  · exact Or.inr ⟨e1.trans e2, le_trans l1 l2⟩

theorem lexLe_total (p q : ℚ × ℚ) : lexLe p q ∨ lexLe q p := by
  rcases lt_trichotomy p.1 q.1 with h | h | h
  · exact Or.inl (Or.inl h)
  · rcases le_total p.2 q.2 with h2 | h2
    · exact Or.inl (Or.inr ⟨h, h2⟩)
    · exact Or.inr (Or.inr ⟨h.symm, h2⟩)
  · exact Or.inr (Or.inl h)

/-- The sort key of `_sort_by_reading_order`: `(min_y, min_x)` of the
bounding box, `(0, 0)` when the box is invalid. -/
def flatKey (s : Segment) : ℚ × ℚ :=
  match parseBox s with
  | none => (0, 0)
  | some (mnx, mny, _, _) => (mny, mnx)

/-- Comparison used by the flat reading-order sort. -/
def flatR (a b : Segment) : Prop := lexLe (flatKey a) (flatKey b)

instance (a b : Segment) : Decidable (flatR a b) := by
  unfold flatR; infer_instance

instance : IsTotal Segment flatR := ⟨fun _ _ => lexLe_total _ _⟩

instance : IsTrans Segment flatR := ⟨fun _ _ _ => lexLe_trans⟩

/-- Model of `_sort_by_reading_order`: stable sort of the segments by `flatKey`
(Python `sorted` with a key is a stable sort by `lexLe` on keys). -/
def sortByReadingOrder (lines : List Segment) : List Segment :=
  lines.insertionSort flatR

/-- A PaddleOCR 3.x dictionary result, as read by `_result_dict_to_lines`.
A `none` field models an absent key (`d.get(k)` returning `None`). -/
structure DictResult where
  dt_polys : Option (List (List PPoint))
  dt_boxes : Option (List (List PPoint))
  boxes : Option (List (List PPoint))
  rec_texts : Option (List String)
  texts : Option (List String)
  rec_scores : Option (List ℚ)
  scores : Option (List ℚ)
deriving DecidableEq

/-- Python truthiness chaining `a or b`: the left list if it is present and
non-empty, otherwise the right value (an absent key and an empty list are
both falsy). -/
def orTruthy [DecidableEq α] (a : Option (List α)) (b : List α) : List α :=
  match a with
  | none => b
  | some l => if l = [] then b else l

/-- Resolution `d.get("dt_polys") or d.get("dt_boxes") or d.get("boxes")`. -/
def resolvedPolys (d : DictResult) : List (List PPoint) :=
  orTruthy d.dt_polys (orTruthy d.dt_boxes (orTruthy d.boxes []))

/-- Resolution `d.get("rec_texts") or d.get("texts")`. -/
def resolvedTexts (d : DictResult) : List String :=
  orTruthy d.rec_texts (orTruthy d.texts [])

/-- Resolution `d.get("rec_scores") or d.get("scores")`. -/
def resolvedScores (d : DictResult) : List ℚ :=
  orTruthy d.rec_scores (orTruthy d.scores [])

/-- The confidence paired with the i-th segment by `_result_dict_to_lines`:
`float(scores[i]) if scores and i < len(scores) else 0.0`. -/
def dictConfAt (d : DictResult) (i : ℕ) : ℚ :=
  if resolvedScores d ≠ [] ∧ i < (resolvedScores d).length
  then (resolvedScores d).getD i 0 else 0

/-- Model of `_result_dict_to_lines`: convert a PaddleOCR 3.x dict result to a list
of `[box, (text, conf)]` segments, pairing the i-th polygon with the i-th
text up to the shorter length. -/
def resultDictToLines (d : DictResult) : List Segment :=
  let polys := resolvedPolys d
  let txts := resolvedTexts d
  if polys = [] ∨ txts = [] then []
  else
    let n := min polys.length txts.length
    (List.range n).map (fun i =>
      ⟨some (polys.getD i []), .pair (txts.getD i "") (dictConfAt d i)⟩)

/-- Model of `np.median` on a list of rationals: sort ascending, take the middle
element for odd length, the mean of the two middle elements for even
length (the empty case is guarded away at the use site). -/
def medianQ (l : List ℚ) : ℚ :=
  let s := l.insertionSort (· ≤ ·)
  let n := l.length
  if n % 2 = 1 then s.getD (n / 2) 0
  else (s.getD (n / 2 - 1) 0 + s.getD (n / 2) 0) / 2

/-- The heights collected by `_group_into_lines`:
`[g[2] for g in geoms if g is not None]` over `geoms = map(_segment_geometry)`. -/
def heightsOf (segs : List Segment) : List ℚ :=
  (segs.map segmentGeometry).filterMap (fun g => g.map Geom.h)

/-- Model of `line_height = float(max(np.median(heights), 5.0)) if heights else 10.0`. -/
def lineHeightOf (segs : List Segment) : ℚ :=
  if heightsOf segs ≠ [] then max (medianQ (heightsOf segs)) 5 else 10

/-- Model of `y_threshold = 0.4 * line_height`. -/
def yThresholdOf (segs : List Segment) : ℚ :=
  (0.4 : ℚ) * lineHeightOf segs

/-- The per-index sort key of `_group_into_lines`: `(center_y, center_x)`
of the i-th geometry, `(0, 0)` when it is `None`. -/
def gKey (g : Option Geom) : ℚ × ℚ :=
  match g with
  | none => (0, 0)
  | some g => (g.cy, g.cx)

/-- Index comparison for the stable index sort of `_group_into_lines`. -/
def idxR (geoms : List (Option Geom)) (i j : ℕ) : Prop :=
  lexLe (gKey (geoms.getD i none)) (gKey (geoms.getD j none))

instance (geoms : List (Option Geom)) (i j : ℕ) : Decidable (idxR geoms i j) := by
  unfold idxR; infer_instance

instance (geoms : List (Option Geom)) : IsTotal ℕ (idxR geoms) :=
  ⟨fun _ _ => lexLe_total _ _⟩

instance (geoms : List (Option Geom)) : IsTrans ℕ (idxR geoms) :=
  ⟨fun _ _ _ => lexLe_trans⟩

/-- The sequence of `(segment, geometry)` pairs in the order in which the
clustering loop of `_group_into_lines` processes them: indices stably
sorted by `(center_y, center_x)` with invalid geometry keyed `(0, 0)`. -/
def clusterOrderG (segs : List Segment) : List (Segment × Option Geom) :=
  let geoms := segs.map segmentGeometry
  let indices := (List.range segs.length).insertionSort (idxR geoms)
  indices.map (fun i => (segs.getD i default, geoms.getD i none))

/-- The loop state of `_group_into_lines`: emitted `lines`, the open
`current_line`, and the reference row center `current_y`. -/
structure GState where
  lines : List (List Segment)
  cur : List Segment
  curY : Option ℚ
deriving DecidableEq

/-- One iteration of the clustering loop of `_group_into_lines` on a
segment paired with its geometry. -/
def groupStep (t : ℚ) (st : GState) (p : Segment × Option Geom) : GState :=
  match p.2 with
  | none =>
    if st.cur ≠ [] then { st with cur := st.cur ++ [p.1] }
    else { st with lines := st.lines ++ [[p.1]], curY := none }
  | some g =>
    match st.curY with
    | none => { st with cur := st.cur ++ [p.1], curY := some g.cy }
    | some y =>
      if |g.cy - y| ≤ t then { st with cur := st.cur ++ [p.1] }
      else { lines := st.lines ++ (if st.cur ≠ [] then [st.cur] else []),
             cur := [p.1], curY := some g.cy }

/-- Model of `_group_into_lines`: group segments into visual lines by similar
y-coordinate; at the end the still-open `current_line` is emitted. -/
def groupIntoLines (segments : List Segment) : List (List Segment) :=
  if segments = [] then []
  else
    let t := yThresholdOf segments
    let fin := (clusterOrderG segments).foldl (groupStep t) ⟨[], [], none⟩
    fin.lines ++ (if fin.cur ≠ [] then [fin.cur] else [])

/-- Model of `_segment_text`: defensive text extraction from `segment[1]`. -/
def segmentText (s : Segment) : String :=
  match s.payload with
  | .missing => ""
  | .plain t => t
  | .pair t _ => t

/-- The confidence carried by a segment payload (0 when absent). -/
def segConf (s : Segment) : ℚ :=
  match s.payload with
  | .pair _ c => c
  | _ => 0

/-- Character-list worker for `_normalize_whitespace`: replace each maximal
run of whitespace by a single space (`prev` records whether the previous
character belonged to a whitespace run). -/
def collapseWs : List Char → Bool → List Char
  | [], _ => []
  | c :: cs, prev =>
    if c.isWhitespace then
      if prev then collapseWs cs true else ' ' :: collapseWs cs true
    else c :: collapseWs cs false

/-- Model of `_normalize_whitespace`: `re.sub(r"\s+", " ", text).strip()` — collapse
whitespace runs to single spaces, then strip both ends. -/
def normalizeWhitespace (s : String) : String :=
  let collapsed := collapseWs s.data false
  String.mk (((collapsed.dropWhile (· = ' ')).reverse.dropWhile (· = ' ')).reverse)

/-- The grouped branch of the assembly in `extract_text_from_image`:
space-join each line, normalize it, newline-join the lines. -/
def assembleGrouped (grouped : List (List Segment)) : String :=
  String.intercalate "\n"
    (grouped.map (fun line =>
      normalizeWhitespace (String.intercalate " " (line.map segmentText))))

/-- The flat fallback branch of `extract_text_from_image`: space-join all
segment texts and normalize once. -/
def flatAssemble (sortedLines : List Segment) : String :=
  normalizeWhitespace (String.intercalate " " (sortedLines.map segmentText))

/-- The raw value handed back by the OCR engine, after the
`result[0]` unwrapping of `extract_text_from_image`: `noneRes` for a falsy
result or `result[0] is None`, `otherRes` for a non list/tuple non-dict
shape, and the list and dict shapes. -/
inductive RawResult where
  | noneRes
  | otherRes
  | dictRes (d : DictResult)
  | listRes (l : List Segment)
deriving DecidableEq

/-- The body of the trailing `try` in `extract_text_from_image`,
parametrised by the grouping function `G`.  `G` returning `none` models
`_group_into_lines` raising; the `grouped = []` test models the explicit
`raise ValueError` when grouping produced no lines from non-empty input;
both are caught by the bare `except` and degrade to the flat fallback. -/
def pipelineCore (G : List Segment → Option (List (List Segment)))
    (lines : List Segment) : String :=
  let sortedLines := sortByReadingOrder lines
  match G sortedLines with
  | none => flatAssemble sortedLines
  | some grouped =>
    if grouped = [] ∧ sortedLines ≠ [] then flatAssemble sortedLines
    else assembleGrouped grouped

/-- Model of `extract_text_from_image` after the OCR engine call, parametrised by
the grouping function (the real pipeline uses `groupIntoLines`). -/
def pipelineWithGrouper (G : List Segment → Option (List (List Segment)))
    (raw : RawResult) : String :=
  match raw with
  | .noneRes => ""
  | .otherRes => ""
  | .dictRes d =>
    let lines := resultDictToLines d
    if lines = [] then "" else pipelineCore G lines
  | .listRes l =>
    if l = [] then "" else pipelineCore G l

/-- The layout-reconstruction pipeline of `extract_text_from_image` with
the real (total) clustering function plugged in. -/
def extractTextModel (raw : RawResult) : String :=
  pipelineWithGrouper (fun l => some (groupIntoLines l)) raw

/-- Spec-side definition (for comparison with the code-side `heightsOf`):
the heights of all segments with valid geometry, in input order. -/
def validHeightsSpec (segs : List Segment) : List ℚ :=
  segs.filterMap (fun s => (segmentGeometry s).map Geom.h)

/-- The multiset content of a clustering loop state: emitted lines plus the
open line. -/
def stFlat (st : GState) : List Segment := st.lines.flatten ++ st.cur

/-- A grouping function that always fails, modelling `_group_into_lines`
raising on its input. -/
def gFail : List Segment → Option (List (List Segment)) := fun _ => none

/-- Concrete invalid-geometry segment (missing box). -/
def wInvA : Segment := ⟨none, .plain "alpha"⟩

/-- Concrete invalid-geometry segment (box present, points malformed). -/
def wInvB : Segment := ⟨some [.malformed, .pair none (some 3)], .plain "beta"⟩

/-- Concrete valid-geometry segment whose bounding box is the single point
`(0, 0)`, so its sort keys are `(0, 0)`. -/
def wValid00 : Segment := ⟨some [.pair (some 0) (some 0)], .plain "origin"⟩

/-- Shorthand for a fully numeric corner point. -/
def pt (x y : ℚ) : PPoint := .pair (some x) (some y)

/-- Concrete valid segment: box `(0,0)-(10,10)`, center `(5,5)`, height 10. -/
def wRow1 : Segment := ⟨some [pt 0 0, pt 10 10], .plain "one"⟩

/-- Concrete valid segment: box `(0,4)-(10,14)`, center `(5,9)`, height 10;
its center is exactly `y_threshold = 4` below the center of `wRow1`. -/
def wRow2 : Segment := ⟨some [pt 0 4, pt 10 14], .plain "two"⟩

/-- Concrete valid segment: box `(0,5)-(10,15)`, center `(5,10)`, height 10;
its center is `y_threshold + 1` below the center of `wRow1`. -/
def wRow3 : Segment := ⟨some [pt 0 5, pt 10 15], .plain "three"⟩

/-- Concrete dictionary result with three polygons, two texts, one score. -/
def wDict : DictResult :=
  ⟨some [[pt 1 1], [pt 2 2], [pt 3 3]], none, none,
   some ["x", "y"], none, some [(9 : ℚ) / 10], none⟩

/-- Concrete dictionary result with one polygon and no text arrays. -/
def wDictNoTexts : DictResult :=
  ⟨some [[pt 1 1]], none, none, none, none, none, none⟩

/-! ## Helper lemmas -/

theorem map_getD_range (l : List α) (d : α) :
    (List.range l.length).map (fun i => l.getD i d) = l := by
  induction l with
  | nil => rfl
  | cons a t ih =>
    rw [List.length_cons, List.range_succ_eq_map, List.map_cons, List.map_map]
    refine congrArg (a :: ·) ?_
    simpa [Function.comp_def, List.getElem?_cons_succ] using ih

theorem clusterOrderG_map_fst_perm (segs : List Segment) :
    ((clusterOrderG segs).map Prod.fst).Perm segs := by
  unfold clusterOrderG
  rw [List.map_map]
  have hperm :
      (((List.range segs.length).insertionSort
          (idxR (segs.map segmentGeometry))).map
        (fun i => segs.getD i default)).Perm
        ((List.range segs.length).map (fun i => segs.getD i default)) :=
    (List.perm_insertionSort _ _).map _
  rw [map_getD_range] at hperm
  exact hperm

theorem stFlat_groupStep (t : ℚ) (st : GState) (p : Segment × Option Geom) :
    stFlat (groupStep t st p) = stFlat st ++ [p.1] := by
  rcases p with ⟨s, g⟩
  cases g with
  | none =>
    by_cases h : st.cur = [] <;>
      simp [stFlat, groupStep, h, List.append_assoc]
  | some g =>
    cases hy : st.curY with
    | none => simp [stFlat, groupStep, hy, List.append_assoc]
    | some y =>
      by_cases h : |g.cy - y| ≤ t
      · simp [stFlat, groupStep, hy, h, List.append_assoc]
      · by_cases hc : st.cur = [] <;>
          simp [stFlat, groupStep, hy, h, hc, List.append_assoc]

theorem stFlat_foldl (t : ℚ) :
    ∀ (ps : List (Segment × Option Geom)) (st : GState),
      stFlat (ps.foldl (groupStep t) st) = stFlat st ++ ps.map Prod.fst
  | [], st => by simp
  | p :: ps, st => by
    rw [List.foldl_cons, stFlat_foldl t ps, stFlat_groupStep, List.map_cons,
      List.append_assoc, List.singleton_append]

theorem flatten_groupIntoLines (segs : List Segment) :
    (groupIntoLines segs).flatten = (clusterOrderG segs).map Prod.fst := by
  unfold groupIntoLines
  by_cases h : segs = []
  · subst h
    simp [clusterOrderG]
  · have hf := stFlat_foldl (yThresholdOf segs) (clusterOrderG segs) ⟨[], [], none⟩
    simp only [stFlat, List.flatten_nil, List.nil_append] at hf
    simp only [groupIntoLines, if_neg h]
    by_cases hc : ((clusterOrderG segs).foldl (groupStep (yThresholdOf segs))
        (⟨[], [], none⟩ : GState)).cur = []
    · rw [hc, List.append_nil] at hf
      simp [hc, hf]
    · rw [if_pos hc, List.flatten_append]
      simpa using hf

theorem insertionSort_of_forall_rel (r : α → α → Prop) [DecidableRel r] :
    ∀ l : List α, (∀ a ∈ l, ∀ b ∈ l, r a b) → l.insertionSort r = l
  | [], _ => rfl
  | a :: l, h => by
    rw [List.insertionSort, insertionSort_of_forall_rel r l
      (fun x hx y hy => h x (List.mem_cons_of_mem _ hx) y (List.mem_cons_of_mem _ hy))]
    cases l with
    | nil => rfl
    | cons b t =>
      rw [List.orderedInsert,
        if_pos (h a (List.mem_cons_self _ _) b
          (List.mem_cons_of_mem _ (List.mem_cons_self _ _)))]

theorem getD_eq_none_of_forall {l : List (Option Geom)}
    (h : ∀ g ∈ l, g = none) (i : ℕ) : l.getD i none = none := by
  rcases Nat.lt_or_ge i l.length with hi | hi
  · rw [List.getD_eq_getElem _ _ hi]
    exact h _ (List.getElem_mem hi)
  · exact List.getD_eq_default _ _ hi

theorem clusterOrderG_all_invalid (segs : List Segment)
    (h : ∀ s ∈ segs, segmentGeometry s = none) :
    clusterOrderG segs = segs.map (fun s => (s, none)) := by
  have hg : ∀ g ∈ segs.map segmentGeometry, g = none := by
    intro g hgm
    rcases List.mem_map.1 hgm with ⟨s, hs, rfl⟩
    exact h s hs
  simp only [clusterOrderG]
  rw [insertionSort_of_forall_rel _ _ (fun i _ j _ => by
    unfold idxR
    rw [getD_eq_none_of_forall hg i, getD_eq_none_of_forall hg j]
    exact lexLe_refl _)]
  have hmap : (List.range segs.length).map
      (fun i => (segs.getD i default, (segs.map segmentGeometry).getD i none)) =
      (List.range segs.length).map (fun i => (segs.getD i default, (none : Option Geom))) :=
    List.map_congr_left (fun i _ => by rw [getD_eq_none_of_forall hg i])
  rw [hmap]
  have : (List.range segs.length).map
      (fun i => ((segs.getD i default : Segment), (none : Option Geom))) =
      ((List.range segs.length).map (fun i => segs.getD i default)).map
        (fun s => (s, (none : Option Geom))) := by
    rw [List.map_map]
    rfl
  rw [this, map_getD_range]

theorem foldl_groupStep_all_invalid (t : ℚ) :
    ∀ (ps : List (Segment × Option Geom)), (∀ p ∈ ps, p.2 = none) →
      ∀ L : List (List Segment),
        ps.foldl (groupStep t) ⟨L, [], none⟩ =
          ⟨L ++ ps.map (fun p => [p.1]), [], none⟩
  | [], _, L => by simp
  | p :: ps, h, L => by
    have hp : p.2 = none := h p (List.mem_cons_self _ _)
    rw [List.foldl_cons]
    have hstep : groupStep t ⟨L, [], none⟩ p = ⟨L ++ [[p.1]], [], none⟩ := by
      rcases p with ⟨s, g⟩
      cases hp
      simp [groupStep]
    rw [hstep, foldl_groupStep_all_invalid t ps
      (fun q hq => h q (List.mem_cons_of_mem _ hq)) (L ++ [[p.1]])]
    simp

theorem groupIntoLines_all_invalid (segs : List Segment)
    (h : ∀ s ∈ segs, segmentGeometry s = none) :
    groupIntoLines segs = segs.map (fun s => [s]) := by
  by_cases hne : segs = []
  · subst hne; rfl
  · simp only [groupIntoLines, if_neg hne, clusterOrderG_all_invalid segs h]
    rw [foldl_groupStep_all_invalid _ _ (by simp) []]
    simp [List.map_map, Function.comp_def]

theorem parseBox_eq_none_of_geometry (s : Segment)
    (h : segmentGeometry s = none) : parseBox s = none := by
  unfold segmentGeometry at h
  cases hp : parseBox s with
  | none => rfl
  | some b =>
    rcases b with ⟨a1, a2, a3, a4⟩
    rw [hp] at h
    simp at h

theorem sortByReadingOrder_all_invalid (segs : List Segment)
    (h : ∀ s ∈ segs, segmentGeometry s = none) :
    sortByReadingOrder segs = segs := by
  unfold sortByReadingOrder
  refine insertionSort_of_forall_rel _ _ (fun a ha b hb => ?_)
  unfold flatR flatKey
  rw [parseBox_eq_none_of_geometry a (h a ha),
    parseBox_eq_none_of_geometry b (h b hb)]
  exact lexLe_refl _

theorem two_le_yThresholdOf (segs : List Segment) : 2 ≤ yThresholdOf segs := by
  unfold yThresholdOf lineHeightOf
  by_cases h : heightsOf segs ≠ []
  · rw [if_pos h]
    have h5 : (5 : ℚ) ≤ max (medianQ (heightsOf segs)) 5 := le_max_right _ _
    nlinarith
  · rw [if_neg h]
    norm_num

theorem clusterOrderG_pairwise (segs : List Segment) :
    (clusterOrderG segs).Pairwise (fun p q => lexLe (gKey p.2) (gKey q.2)) := by
  unfold clusterOrderG
  rw [List.pairwise_map]
  exact List.sorted_insertionSort (idxR (segs.map segmentGeometry)) _

theorem sortByReadingOrder_ne_nil {segs : List Segment} (h : segs ≠ []) :
    sortByReadingOrder segs ≠ [] := by
  intro hs
  exact h (List.Perm.eq_nil ((List.perm_insertionSort flatR segs).symm.trans
    (hs ▸ List.Perm.refl _)))

/-! ## Claim theorems -/

/-- C1: for every input segment list, the grouped path never drops or
duplicates a segment — the concatenation (flatten) of the lines returned by
`_group_into_lines` is a permutation of the input, and the flat fallback
sequence returned by `_sort_by_reading_order` is a permutation of the input,
including segments with invalid geometry. -/
theorem c1_no_segment_dropped_or_duplicated (segs : List Segment) :
    ((groupIntoLines segs).flatten).Perm segs ∧
    (sortByReadingOrder segs).Perm segs := by
  refine ⟨?_, List.perm_insertionSort _ _⟩
  rw [flatten_groupIntoLines]
  exact clusterOrderG_map_fst_perm segs

/-- C7: the flat reading-order sort returns exactly the input segments (a
permutation), reordered ascending by the key `(min_y, min_x)` of each
segment's bounding box, where an invalid-geometry segment is keyed `(0, 0)`
(the key and its default are encoded in `flatKey`, the order in `flatR`). -/
theorem c7_flat_sort_is_ordered_permutation (l : List Segment) :
    (sortByReadingOrder l).Perm l ∧ (sortByReadingOrder l).Pairwise flatR :=
  ⟨List.perm_insertionSort _ _, List.sorted_insertionSort flatR l⟩

/-- C2: after the OCR engine has returned, the pipeline is total (this model
is a total function) and degrades instead of failing: an absent or empty raw
result yields the empty string, and if clustering raises (grouper returns
`none`) or yields an empty grouping on non-empty input, the result is the
flat fallback — segments in flat reading order, texts space-joined,
whitespace-normalized once (`flatAssemble`). -/
theorem c2_pipeline_degrades (G : List Segment → Option (List (List Segment)))
    (d : DictResult) (segs : List Segment) (hne : segs ≠ []) :
    pipelineWithGrouper G .noneRes = "" ∧
    pipelineWithGrouper G .otherRes = "" ∧
    pipelineWithGrouper G (.listRes []) = "" ∧
    (resultDictToLines d = [] → pipelineWithGrouper G (.dictRes d) = "") ∧
    ((G (sortByReadingOrder segs) = none ∨ G (sortByReadingOrder segs) = some []) →
      pipelineWithGrouper G (.listRes segs) = flatAssemble (sortByReadingOrder segs)) := by
  refine ⟨rfl, rfl, rfl, ?_, ?_⟩
  · intro hd
    simp [pipelineWithGrouper, hd]
  · intro hG
    simp only [pipelineWithGrouper, if_neg hne]
    rcases hG with hG | hG
    · simp [pipelineCore, hG]
    · simp [pipelineCore, hG, sortByReadingOrder_ne_nil hne]

/-- Witness for C2: with a grouper that always raises and the one-segment
input `[wInvA]`, the pipeline returns the flat fallback. -/
theorem c2_pipeline_degrades_witness :
    pipelineWithGrouper gFail (.listRes [wInvA]) =
      flatAssemble (sortByReadingOrder [wInvA]) :=
  (c2_pipeline_degrades gFail wDict [wInvA] (by decide)).2.2.2.2 (Or.inl rfl)

/-- C3 counterexample: two consecutive invalid-geometry segments, the first
processed while no line is open, end up in two separate singleton lines —
the second does not join the first one's line, contrary to the claim. -/
theorem c3_counterexample :
    segmentGeometry wInvA = none ∧ segmentGeometry wInvB = none ∧
    groupIntoLines [wInvA, wInvB] = [[wInvA], [wInvB]] ∧
    groupIntoLines [wInvA, wInvB] ≠ [[wInvA, wInvB]] := by decide

/-- C3 corrected: an invalid-geometry segment processed while no line is
open is emitted immediately as a closed singleton line and the open-line
buffer stays empty with `current_y` cleared; consequently a subsequent
invalid-geometry segment (with no valid-geometry segment between them)
starts its own singleton line as well. -/
theorem c3_amended_invalid_singletons :
    (∀ (t : ℚ) (st : GState) (s : Segment), st.cur = [] →
      groupStep t st (s, none) = ⟨st.lines ++ [[s]], [], none⟩) ∧
    (∀ s1 s2 : Segment, segmentGeometry s1 = none → segmentGeometry s2 = none →
      groupIntoLines [s1, s2] = [[s1], [s2]]) := by
  constructor
  · intro t st s hc
    rcases st with ⟨L, c, y⟩
    simp only at hc
    subst hc
    simp [groupStep]
  · intro s1 s2 h1 h2
    rw [groupIntoLines_all_invalid [s1, s2] (by
      intro s hs
      rcases List.mem_pair.1 hs with rfl | rfl
      · exact h1
      · exact h2)]
    rfl

/-- Witness for C3: the step lemma applied at a concrete state, and the
two-invalid-segment consequence at concrete segments. -/
theorem c3_amended_invalid_singletons_witness :
    groupStep 1 ⟨[[wValid00]], [], none⟩ (wInvA, none) =
      ⟨[[wValid00], [wInvA]], [], none⟩ ∧
    groupIntoLines [wInvA, wInvB] = [[wInvA], [wInvB]] :=
  ⟨c3_amended_invalid_singletons.1 1 ⟨[[wValid00]], [], none⟩ wInvA rfl,
   c3_amended_invalid_singletons.2 wInvA wInvB (by decide) (by decide)⟩

/-- C4 counterexample: with two unparseable-polygon segments the pipeline
output keeps the input order but renders each segment on its own line
(newline-joined), not as one single line. -/
theorem c4_counterexample :
    segmentGeometry wInvA = none ∧ segmentGeometry wInvB = none ∧
    extractTextModel (.listRes [wInvA, wInvB]) = "alpha\nbeta" ∧
    extractTextModel (.listRes [wInvA, wInvB]) ≠ "alpha beta" := by decide

/-- C4 corrected: if every segment of a non-empty input has an unparseable
polygon, the pipeline does not crash (the model is total) and renders the
segments' texts in the original input order, each segment on its own line,
joined by newlines — not as one single line. -/
theorem c4_amended_each_own_line (segs : List Segment) (hne : segs ≠ [])
    (hinv : ∀ s ∈ segs, segmentGeometry s = none) :
    extractTextModel (.listRes segs) =
      String.intercalate "\n"
        (segs.map (fun s => normalizeWhitespace (segmentText s))) := by
  simp only [extractTextModel, pipelineWithGrouper, if_neg hne]
  have hsort : sortByReadingOrder segs = segs :=
    sortByReadingOrder_all_invalid segs hinv
  simp only [pipelineCore, hsort]
  rw [groupIntoLines_all_invalid segs hinv]
  have hmne : segs.map (fun s => [s]) ≠ [] := by
    intro hmap
    exact hne (List.map_eq_nil_iff.mp hmap)
  rw [if_neg (fun hand => hmne hand.1)]
  unfold assembleGrouped
  rw [List.map_map]
  refine congrArg _ (List.map_congr_left (fun s _ => ?_))
  show normalizeWhitespace (String.intercalate " " [segmentText s]) = _
  rfl

/-- Witness for C4 corrected: two concrete invalid segments render as two
newline-separated lines in input order. -/
theorem c4_amended_each_own_line_witness :
    extractTextModel (.listRes [wInvA, wInvB]) =
      String.intercalate "\n"
        ([wInvA, wInvB].map (fun s => normalizeWhitespace (segmentText s))) :=
  c4_amended_each_own_line [wInvA, wInvB] (by decide) (by decide)

theorem clusterOrderG_two_valid (s1 s2 : Segment) (g1 g2 : Geom)
    (h1 : segmentGeometry s1 = some g1) (h2 : segmentGeometry s2 = some g2)
    (hlt : g1.cy < g2.cy) :
    clusterOrderG [s1, s2] = [(s1, some g1), (s2, some g2)] := by
  have hg : ([s1, s2] : List Segment).map segmentGeometry = [some g1, some g2] := by
    simp [h1, h2]
  have hr01 : idxR [some g1, some g2] 0 1 := Or.inl hlt
  have hs : (List.range 2).insertionSort (idxR [some g1, some g2]) = [0, 1] := by
    show List.orderedInsert _ 0 (List.orderedInsert _ 1 []) = [0, 1]
    rw [List.orderedInsert_nil, List.orderedInsert, if_pos hr01]
  simp only [clusterOrderG, hg]
  have hlen : ([s1, s2] : List Segment).length = 2 := rfl
  rw [hlen, hs]
  rfl

/-- C5: two valid-geometry segments whose centers differ by exactly the
computed `y_threshold` land in the same line; a strictly larger difference
splits them into two lines; and a valid segment appended within threshold
leaves the line's reference `current_y` unchanged — only the first valid
member fixes it. -/
theorem c5_threshold_and_reference :
    (∀ (s1 s2 : Segment) (g1 g2 : Geom),
      segmentGeometry s1 = some g1 → segmentGeometry s2 = some g2 →
      g2.cy - g1.cy = yThresholdOf [s1, s2] →
      groupIntoLines [s1, s2] = [[s1, s2]]) ∧
    (∀ (s1 s2 : Segment) (g1 g2 : Geom),
      segmentGeometry s1 = some g1 → segmentGeometry s2 = some g2 →
      yThresholdOf [s1, s2] < g2.cy - g1.cy →
      groupIntoLines [s1, s2] = [[s1], [s2]]) ∧
    (∀ (t : ℚ) (st : GState) (s : Segment) (g : Geom) (y : ℚ),
      st.curY = some y → |g.cy - y| ≤ t →
      (groupStep t st (s, some g)).curY = some y) := by
  refine ⟨?_, ?_, ?_⟩
  · intro s1 s2 g1 g2 h1 h2 hex
    have ht := two_le_yThresholdOf [s1, s2]
    have hlt : g1.cy < g2.cy := by linarith
    have hco := clusterOrderG_two_valid s1 s2 g1 g2 h1 h2 hlt
    have habs : |g2.cy - g1.cy| ≤ yThresholdOf [s1, s2] := by
      rw [abs_of_nonneg (by linarith)]
      linarith
    simp only [groupIntoLines,
      if_neg (by simp : ¬([s1, s2] : List Segment) = []), hco,
      List.foldl_cons, List.foldl_nil]
    rw [show groupStep (yThresholdOf [s1, s2]) ⟨[], [], none⟩ (s1, some g1) =
        ⟨[], [s1], some g1.cy⟩ from rfl]
    have hstep2 : groupStep (yThresholdOf [s1, s2]) ⟨[], [s1], some g1.cy⟩
        (s2, some g2) = ⟨[], [s1, s2], some g1.cy⟩ := by
      simp [groupStep, habs]
    rw [hstep2]
    simp
  · intro s1 s2 g1 g2 h1 h2 hgt
    have ht := two_le_yThresholdOf [s1, s2]
    have hlt : g1.cy < g2.cy := by linarith
    have hco := clusterOrderG_two_valid s1 s2 g1 g2 h1 h2 hlt
    have habs : ¬(|g2.cy - g1.cy| ≤ yThresholdOf [s1, s2]) := by
      rw [abs_of_nonneg (by linarith)]
      linarith
    simp only [groupIntoLines,
      if_neg (by simp : ¬([s1, s2] : List Segment) = []), hco,
      List.foldl_cons, List.foldl_nil]
    rw [show groupStep (yThresholdOf [s1, s2]) ⟨[], [], none⟩ (s1, some g1) =
        ⟨[], [s1], some g1.cy⟩ from rfl]
    have hstep2 : groupStep (yThresholdOf [s1, s2]) ⟨[], [s1], some g1.cy⟩
        (s2, some g2) = ⟨[[s1]], [s2], some g2.cy⟩ := by
      simp [groupStep, habs]
    rw [hstep2]
    simp
  · intro t st s g y hy hle
    cases st with
    | mk L c cy =>
      simp only at hy
      subst hy
      simp [groupStep, hle]

unseal Rat.mul Rat.add Rat.sub Rat.inv Rat.ofScientific in
/-- Witness for C5: concrete boxes of height 10 give `y_threshold = 4`; a
center difference of exactly 4 merges, of 5 splits; and a concrete in-range
step keeps `current_y`. -/
theorem c5_threshold_and_reference_witness :
    groupIntoLines [wRow1, wRow2] = [[wRow1, wRow2]] ∧
    groupIntoLines [wRow1, wRow3] = [[wRow1], [wRow3]] ∧
    (groupStep 1 ⟨[], [wValid00], some 3⟩ (wInvA, some ⟨0, 3, 1⟩)).curY = some 3 :=
  ⟨c5_threshold_and_reference.1 wRow1 wRow2 ⟨5, 5, 10⟩ ⟨5, 9, 10⟩
      (by decide) (by decide) (by decide),
   c5_threshold_and_reference.2.1 wRow1 wRow3 ⟨5, 5, 10⟩ ⟨5, 10, 10⟩
      (by decide) (by decide) (by decide),
   c5_threshold_and_reference.2.2 1 ⟨[], [wValid00], some 3⟩ wInvA ⟨0, 3, 1⟩ 3
      rfl (by decide)⟩

/-- C6: for every input segment list, the clustering tolerance used by
`_group_into_lines` is `y_threshold = 0.4 * line_height = 2/5 * line_height`,
where `line_height` is `max(median(valid heights), 5)` when at least one
segment has valid geometry and `10` otherwise (here stated against the
spec-side `validHeightsSpec`). -/
theorem c6_threshold_formula (segs : List Segment) :
    yThresholdOf segs = 2 / 5 * lineHeightOf segs ∧
    lineHeightOf segs =
      (if validHeightsSpec segs = [] then 10
       else max (medianQ (validHeightsSpec segs)) 5) := by
  have hs : heightsOf segs = validHeightsSpec segs := by
    unfold heightsOf validHeightsSpec
    rw [List.filterMap_map]
    rfl
  constructor
  · unfold yThresholdOf
    norm_num
  · unfold lineHeightOf
    rw [hs]
    by_cases h : validHeightsSpec segs = []
    · simp [h]
    · simp [h]

theorem resultDictToLines_length (d : DictResult) :
    (resultDictToLines d).length =
      min (resolvedPolys d).length (resolvedTexts d).length := by
  by_cases hc : resolvedPolys d = [] ∨ resolvedTexts d = []
  · have hnil : resultDictToLines d = [] := by
      simp only [resultDictToLines, if_pos hc]
    rw [hnil]
    rcases hc with hc | hc <;> simp [hc]
  · simp only [resultDictToLines, if_neg hc]
    simp

theorem resultDictToLines_getD (d : DictResult) (i : ℕ)
    (hi : i < (resultDictToLines d).length) :
    (resultDictToLines d).getD i default =
      ⟨some ((resolvedPolys d).getD i []),
       .pair ((resolvedTexts d).getD i "") (dictConfAt d i)⟩ := by
  by_cases hc : resolvedPolys d = [] ∨ resolvedTexts d = []
  · have hnil : resultDictToLines d = [] := by
      simp only [resultDictToLines, if_pos hc]
    rw [hnil] at hi
    simp at hi
  · have hmap : resultDictToLines d =
        (List.range (min (resolvedPolys d).length (resolvedTexts d).length)).map
          (fun i => ⟨some ((resolvedPolys d).getD i []),
            .pair ((resolvedTexts d).getD i "") (dictConfAt d i)⟩) := by
      simp only [resultDictToLines, if_neg hc]
    rw [hmap] at hi ⊢
    rw [List.length_map, List.length_range] at hi
    rw [List.getD_eq_getElem _ _ (by simpa using hi)]
    simp

/-- C8: normalizing a dictionary result pairs the i-th polygon with the i-th
text (and the confidence resolved for index i) for i below the minimum of
the two array lengths, dropping any excess; absent or empty polygons or
texts give the empty segment list. -/
theorem c8_dict_pairing (d : DictResult) :
    (resultDictToLines d).length =
      min (resolvedPolys d).length (resolvedTexts d).length ∧
    ((resolvedPolys d = [] ∨ resolvedTexts d = []) → resultDictToLines d = []) ∧
    (∀ i, i < (resultDictToLines d).length →
      (resultDictToLines d).getD i default =
        ⟨some ((resolvedPolys d).getD i []),
         .pair ((resolvedTexts d).getD i "") (dictConfAt d i)⟩) := by
  refine ⟨resultDictToLines_length d, ?_, resultDictToLines_getD d⟩
  intro hc
  simp only [resultDictToLines, if_pos hc]

/-- Witness for C8: the 3-polygon 2-text dictionary pairs entry 0 as stated,
and a dictionary lacking texts yields no segments. -/
theorem c8_dict_pairing_witness :
    (resultDictToLines wDict).getD 0 default =
      ⟨some ((resolvedPolys wDict).getD 0 []),
       .pair ((resolvedTexts wDict).getD 0 "") (dictConfAt wDict 0)⟩ ∧
    resultDictToLines wDictNoTexts = [] :=
  ⟨(c8_dict_pairing wDict).2.2 0 (by decide),
   (c8_dict_pairing wDictNoTexts).2.1 (Or.inr rfl)⟩

/-- C10: every segment produced from a dictionary result carries confidence
`scores[i]` exactly when the resolved scores array has an i-th element and 0
otherwise, and removing the scores arrays changes no produced (box, text)
pair — a missing scores array never prevents the pairing. -/
theorem c10_dict_scores (d : DictResult) :
    (∀ i, i < (resultDictToLines d).length →
      segConf ((resultDictToLines d).getD i default) =
        (if i < (resolvedScores d).length
         then (resolvedScores d).getD i 0 else 0)) ∧
    (resultDictToLines { d with rec_scores := none, scores := none }).map
        (fun s => (s.box, segmentText s)) =
      (resultDictToLines d).map (fun s => (s.box, segmentText s)) := by
  constructor
  · intro i hi
    rw [resultDictToLines_getD d i hi]
    show dictConfAt d i = _
    unfold dictConfAt
    by_cases hsc : i < (resolvedScores d).length
    · rw [if_pos hsc, if_pos]
      refine ⟨?_, hsc⟩
      intro hempty
      rw [hempty] at hsc
      simp at hsc
    · rw [if_neg hsc, if_neg]
      intro hand
      exact hsc hand.2
  · have hpoly : resolvedPolys { d with rec_scores := none, scores := none } =
        resolvedPolys d := rfl
    have htext : resolvedTexts { d with rec_scores := none, scores := none } =
        resolvedTexts d := rfl
    by_cases hc : resolvedPolys d = [] ∨ resolvedTexts d = []
    · simp only [resultDictToLines, hpoly, htext, if_pos hc]
    · simp only [resultDictToLines, hpoly, htext, if_neg hc]
      rw [List.map_map, List.map_map]
      rfl

unseal Rat.mul Rat.add Rat.sub Rat.inv Rat.ofScientific in
/-- Witness for C10: in the concrete dictionary the first segment carries
the in-range score, the second the 0 default. -/
theorem c10_dict_scores_witness :
    segConf ((resultDictToLines wDict).getD 0 default) =
      (if 0 < (resolvedScores wDict).length
       then (resolvedScores wDict).getD 0 0 else 0) ∧
    segConf ((resultDictToLines wDict).getD 1 default) =
      (if 1 < (resolvedScores wDict).length
       then (resolvedScores wDict).getD 1 0 else 0) :=
  ⟨(c10_dict_scores wDict).1 0 (by decide),
   (c10_dict_scores wDict).1 1 (by decide)⟩

unseal Rat.mul Rat.add Rat.sub Rat.inv Rat.ofScientific in
/-- C9 counterexample: a valid-geometry segment whose center is exactly
`(0, 0)` ties with the invalid-geometry key, and the stable sort keeps the
input order, so the valid segment is processed before the invalid one —
refuting that every invalid-geometry segment precedes every valid one. -/
theorem c9_counterexample :
    segmentGeometry wValid00 = some ⟨0, 0, 0⟩ ∧
    segmentGeometry wInvA = none ∧
    clusterOrderG [wValid00, wInvA] =
      [(wValid00, some ⟨0, 0, 0⟩), (wInvA, none)] := by
  decide

/-- C9 corrected: the clustering order is ascending in the lexicographic key
`(center_y, center_x)` with invalid geometry keyed `(0, 0)`; consequently an
invalid-geometry segment is never processed after a valid-geometry segment
whose key is lexicographically strictly greater than `(0, 0)` (a valid
segment whose key ties at `(0, 0)` can precede it under the stable sort);
and an invalid-geometry segment never sets the line's reference row. -/
theorem c9_amended_sort_order :
    (∀ segs : List Segment,
      (clusterOrderG segs).Pairwise (fun p q => lexLe (gKey p.2) (gKey q.2))) ∧
    (∀ (segs : List Segment) (i j : ℕ) (hi : i < (clusterOrderG segs).length)
        (hj : j < (clusterOrderG segs).length), i < j →
      ((clusterOrderG segs).get ⟨j, hj⟩).2 = none →
      ¬ lexLt (0, 0) (gKey ((clusterOrderG segs).get ⟨i, hi⟩).2)) ∧
    (∀ (t : ℚ) (st : GState) (s : Segment),
      (groupStep t st (s, none)).curY = none ∨
      (groupStep t st (s, none)).curY = st.curY) := by
  refine ⟨clusterOrderG_pairwise, ?_, ?_⟩
  · intro segs i j hi hj hij hnone
    have hp := (List.pairwise_iff_get.1 (clusterOrderG_pairwise segs))
      ⟨i, hi⟩ ⟨j, hj⟩ hij
    rw [hnone] at hp
    intro hlt
    have hp2 : lexLe (gKey ((clusterOrderG segs).get ⟨i, hi⟩).2) (0, 0) := hp
    unfold lexLe at hp2
    unfold lexLt at hlt
    simp only at hp2 hlt
    rcases hp2 with h1 | ⟨h1, h2⟩ <;> rcases hlt with h3 | ⟨h3, h4⟩ <;> linarith
  · intro t st s
    by_cases hc : st.cur = []
    · left
      simp [groupStep, hc]
    · right
      simp [groupStep, hc]

/-- Witness for C9 corrected: among two invalid segments the first position
has key `(0, 0)`, which is not strictly above `(0, 0)`; and a concrete
invalid step leaves the reference unset. -/
theorem c9_amended_sort_order_witness :
    (¬ lexLt (0, 0)
      (gKey (((clusterOrderG [wInvA, wInvB]).get ⟨0, by decide⟩).2))) ∧
    ((groupStep 1 ⟨[], [], none⟩ (wInvA, none)).curY = none ∨
      (groupStep 1 ⟨[], [], none⟩ (wInvA, none)).curY =
        (⟨[], [], none⟩ : GState).curY) :=
  ⟨c9_amended_sort_order.2.1 [wInvA, wInvB] 0 1 (by decide) (by decide)
      (by decide) (by decide),
   c9_amended_sort_order.2.2 1 ⟨[], [], none⟩ wInvA⟩

end OcrLayout
